import Mathlib

/-!
Verification development for the mi-prometheus repository.

Shallow embedding of:
  * `DataDict` and `Problem` from `problems/problem.py`;
  * the `MAES` model (`forward`, `save`) from
    `models/encoder_solver/maes_model.py`.

Python dictionaries are modelled as association lists in insertion
order; Python exceptions are modelled with `Except`; tensor values
(floats in the source) are modelled as rationals.
-/

namespace MiPrometheus

deriving instance DecidableEq for Except

/-- A Python exception. Only `KeyError` is raised by the embedded code. -/
inductive PyError : Type
  | keyError (msg : String)
deriving DecidableEq

/-- A `DataDict` stores key/value pairs; the underlying Python dict
`self.__dict__` is modelled as an association list in insertion order. -/
abbrev DataDict (K V : Type) : Type := List (K × V)

namespace DataDict

variable {K V : Type} [DecidableEq K]

/-- The list of keys of the dict, `self.keys()`. -/
def keys (d : DataDict K V) : List K := d.map Prod.fst

/-- Membership test `key in self.keys()`. -/
def containsKey (d : DataDict K V) (k : K) : Bool := decide (k ∈ keys d)

/-- Assignment `self.__dict__[key] = value`: replaces the value of an
existing key in place, appends a new key at the end (Python dicts
preserve insertion order). -/
def setValue : DataDict K V → K → V → DataDict K V
  | [], k, v => [(k, v)]
  | (k₀, v₀) :: rest, k, v =>
      if k₀ = k then (k, v) :: rest else (k₀, v₀) :: setValue rest k v

/-- Lookup `self.__dict__[key]`, returning `none` when the key is absent. -/
def getValue : DataDict K V → K → Option V
  | [], _ => none
  | (k₀, v₀) :: rest, k => if k₀ = k then some v₀ else getValue rest k

/-- The Python statement `del self.__dict__[key]`: removes the entry when
the key is present and raises `KeyError` otherwise. -/
def delValue (d : DataDict K V) (k : K) : Except PyError (DataDict K V) :=
  if containsKey d k then
    Except.ok (d.filter (fun kv => decide (kv.1 ≠ k)))
  else
    Except.error (PyError.keyError "KeyError")

/-- `DataDict.__setitem__(key, value, addkey=False)`, problem.py lines 43-67. -/
def setitem (d : DataDict K V) (k : K) (v : V) (addkey : Bool) :
    Except PyError (DataDict K V) :=
  if addkey && !(containsKey d k) then
    Except.error (PyError.keyError "Cannot modify a non-existing key.")
  else
    Except.ok (setValue d k v)

/-- `DataDict.__getitem__(key)`, problem.py lines 69-78. -/
def getitem (d : DataDict K V) (k : K) : Option V := getValue d k

/-- `DataDict.__delitem__(key, override=False)`, problem.py lines 80-99. -/
def delitem (d : DataDict K V) (k : K) (override : Bool) :
    Except PyError (DataDict K V) :=
  if !override then
    Except.error (PyError.keyError "Not authorizing the deletion of a key.")
  else
    delValue d k

end DataDict

/-- Python type tags appearing in `data_definitions` entries. -/
inductive PyType | torchTensor
deriving DecidableEq

/-- One entry of `data_definitions`, e.g. the Python dict with fields
"size" and "type". -/
structure DataDef where
  size : List Int
  type : List PyType
deriving DecidableEq

/-- The default `data_definitions` set in `Problem.__init__`,
problem.py line 311: a single "targets" entry. -/
def Problem.init_data_definitions : DataDict String DataDef :=
  [("targets", { size := [-1, 1], type := [PyType.torchTensor] })]

/-- `Problem.__getitem__(index)`, problem.py lines 363-409: returns a
`DataDict` holding one key for every key of `data_definitions`, each
mapped to `None` (the index is ignored by the base class). -/
def Problem.getitem (V : Type) (data_definitions : DataDict String DataDef)
    (index : Nat) : DataDict String (Option V) :=
  data_definitions.map (fun kv => (kv.1, (none : Option V)))

/-- `Problem.get_epoch_size`, problem.py lines 490-506. -/
def Problem.get_epoch_size (length batch_size : Nat) : Nat :=
  if length % batch_size = 0 then length / batch_size
  else length / batch_size + 1

/-! ## The MAES model, models/encoder_solver/maes_model.py

Tensor values (floats in the source) are modelled as rationals; a
tensor of rank n is a depth-n nested list. The encoder cell
(`MAECell`) and the solver cell (`MASCell`) live in files that are not
part of the sources under verification, so the model carries them as
uninterpreted functions over abstract state types `σE` and `σS`; every
tensor-level fact about them that a theorem needs is taken as an
explicit hypothesis following the spec. -/

abbrev Scalar := ℚ
abbrev Tensor1 := List Scalar
abbrev Tensor2 := List Tensor1
abbrev Tensor3 := List Tensor2

/-- An all-zero vector, `torch.zeros(n)`. -/
def zeros1 (n : Nat) : Tensor1 := List.replicate n 0

/-- An all-zero matrix, `torch.zeros(r, c)`. -/
def zeros2 (r c : Nat) : Tensor2 := List.replicate r (zeros1 c)

/-- An all-zero rank-3 tensor, `torch.zeros(a, r, c)`. -/
def zeros3 (a r c : Nat) : Tensor3 := List.replicate a (zeros2 r c)

/-- Truthiness of the tensor element `x[0, i]` of a matrix
`x : [BATCH_SIZE x INPUT_SIZE]`: nonzero means true. -/
def tensorBit (x : Tensor2) (i : Nat) : Bool := decide ((x.getD 0 []).getD i 0 ≠ 0)

/-- What a `torch.save` call wrote: the state dict of the whole model or
the state dict of the encoder. -/
inductive SavedObject | modelStateDict | encoderStateDict
deriving DecidableEq

/-- One call `torch.save(obj, path)`. -/
structure SaveEvent where
  path : String
  obj : SavedObject
deriving DecidableEq

/-- The Python format specifier `{:05d}` applied to a natural number:
decimal digits, left-padded with zeros to width 5. -/
def format05 (n : Nat) : String :=
  let s := toString n
  if s.length < 5 then String.mk (List.replicate (5 - s.length) '0') ++ s else s

/-- The MAES model (maes_model.py, class MAES). Fields record the
parameters parsed in `__init__` together with the two cells and the
state accessors the forward pass uses, kept uninterpreted:

  * `encoder_init_state s` is `self.encoder.init_state(s)`;
  * `encoder_cell x s` is `self.encoder(x, s)`;
  * `solver_cell x s` is `self.solver(x, s)`;
  * `solver_init_state_with_encoder_state s` is
    `self.solver.init_state_with_encoder_state(s)`;
  * `memory_state s` is `s.memory_state` of an encoder state;
  * `attention s` is `s.interface_state.attention` of an encoder state;
  * `solver_init_state m a` is `self.solver.init_state(m, a)`. -/
structure MAES (σE σS : Type) where
  encoding_bit : Nat
  solving_bit : Nat
  pass_cell_state : Bool
  save_encoder : Bool
  num_memory_addresses : Int
  num_memory_content_bits : Nat
  encoder_init_state : Tensor3 → σE
  encoder_cell : Tensor2 → σE → Tensor2 × σE
  solver_cell : Tensor2 → σS → Tensor2 × σS
  solver_init_state_with_encoder_state : σE → σS
  memory_state : σE → Tensor3
  attention : σE → Tensor2
  solver_init_state : Tensor3 → Tensor2 → σS

/-- `MAES.save(model_dir, episode)`, maes_model.py lines 74-91, as the
list of `torch.save` calls it performs, in order. -/
def MAES.save {σE σS : Type} (M : MAES σE σS) (model_dir : String)
    (episode : Nat) : List SaveEvent :=
  let model_filename := "model_episode_" ++ format05 episode ++ ".pt"
  let first := SaveEvent.mk (model_dir ++ model_filename) SavedObject.modelStateDict
  if M.save_encoder then
    let encoder_filename := "encoder_episode_" ++ format05 episode ++ ".pt"
    [first, SaveEvent.mk (model_dir ++ encoder_filename) SavedObject.encoderStateDict]
  else
    [first]

/-- The two operation modes, maes_model.py line 71. -/
inductive Mode | Encode | Solve
deriving DecidableEq

/-- How a run of `MAES.forward` can abort:

  * `illegalInput`: the `exit(-1)` of line 148 (both control bits on);
  * `emptyInput`: `chunk` (line 132) requires at least one chunk, so a
    zero-length sequence raises;
  * `missingSolverState`: running the solver cell with the initial
    `solver_state = None` would crash inside the cell (unreachable from
    the initial state, as proved below). -/
inductive RunError | illegalInput | emptyInput | missingSolverState
deriving DecidableEq

/-- The state carried through the loop of `MAES.forward` (lines 122-157):
the current mode, the encoder and solver states and the logits collected
so far. The extra field `modesUsed` is specification-only
instrumentation recording, for each processed step, which of the two
cells ran at that step. -/
structure LoopState (σE σS : Type) where
  mode : Mode
  encoder_state : σE
  solver_state : Option σS
  logits : List Tensor2
  modesUsed : List Mode
deriving DecidableEq

variable {σE σS : Type}

/-- `x[0, self.encoding_bit]` as a Bool. -/
def MAES.encBit (M : MAES σE σS) (x : Tensor2) : Bool := tensorBit x M.encoding_bit

/-- `x[0, self.solving_bit]` as a Bool. -/
def MAES.solBit (M : MAES σE σS) (x : Tensor2) : Bool := tensorBit x M.solving_bit

/-- Lines 136-148 of maes_model.py: switch between the encoder and
solver modes depending on the control bits of the current item `x`;
both bits on logs an error and terminates the process. -/
def MAES.switchMode (M : MAES σE σS) (x : Tensor2) (st : LoopState σE σS) :
    Except RunError (LoopState σE σS) :=
  if M.solBit x && !(M.encBit x) then
    let ss :=
      if M.pass_cell_state then
        M.solver_init_state_with_encoder_state st.encoder_state
      else
        M.solver_init_state (M.memory_state st.encoder_state) (M.attention st.encoder_state)
    Except.ok { st with mode := Mode.Solve, solver_state := some ss }
  else if M.encBit x && M.solBit x then
    Except.error RunError.illegalInput
  else
    Except.ok st

/-- Lines 150-157 of maes_model.py: run the encoder or the solver,
depending on the mode, and collect the logit. -/
def MAES.runCell (M : MAES σE σS) (x : Tensor2) (st : LoopState σE σS) :
    Except RunError (LoopState σE σS) :=
  match st.mode with
  | Mode.Encode =>
      let r := M.encoder_cell x st.encoder_state
      Except.ok { st with encoder_state := r.2,
                          logits := st.logits ++ [r.1],
                          modesUsed := st.modesUsed ++ [Mode.Encode] }
  | Mode.Solve =>
      match st.solver_state with
      | none => Except.error RunError.missingSolverState
      | some ss =>
          let r := M.solver_cell x ss
          Except.ok { st with solver_state := some r.2,
                              logits := st.logits ++ [r.1],
                              modesUsed := st.modesUsed ++ [Mode.Solve] }

/-- One iteration of the loop of `MAES.forward` on the current item `x`. -/
def MAES.forwardStep (M : MAES σE σS) (st : LoopState σE σS) (x : Tensor2) :
    Except RunError (LoopState σE σS) :=
  match M.switchMode x st with
  | Except.error e => Except.error e
  | Except.ok st₂ => M.runCell x st₂

/-- The loop of `MAES.forward` over the sequence of items. -/
def MAES.forwardLoop (M : MAES σE σS) :
    LoopState σE σS → List Tensor2 → Except RunError (LoopState σE σS)
  | st, [] => Except.ok st
  | st, x :: xs =>
      match M.forwardStep st x with
      | Except.error e => Except.error e
      | Except.ok st₂ => M.forwardLoop st₂ xs

/-- The state before the loop, maes_model.py lines 110-130: memory is a
zero tensor whose number of addresses is data-driven when the parameter
is -1, the encoder state is initialised from it, the solver state is
`None`, the mode is `Encode` and no logits have been collected. -/
def MAES.initState (M : MAES σE σS) (batch_size seq_len : Nat) : LoopState σE σS :=
  let num_memory_addresses : Nat :=
    if M.num_memory_addresses = -1 then seq_len else M.num_memory_addresses.toNat
  { mode := Mode.Encode
    encoder_state := M.encoder_init_state
      (zeros3 batch_size num_memory_addresses M.num_memory_content_bits)
    solver_state := none
    logits := []
    modesUsed := [] }

/-- `torch.stack(logits, 1)` for a list of `[BATCH_SIZE x OUTPUT_SIZE]`
matrices: element `[b, t]` of the result is row `b` of `logits[t]`. -/
def stack1 (batch_size : Nat) (logits : List Tensor2) : Tensor3 :=
  (List.range batch_size).map (fun b => logits.map (fun t => t.getD b []))

/-- `MAES.forward`, maes_model.py lines 94-161, on the list of
per-time-step input slices (each of shape `[BATCH_SIZE x INPUT_SIZE]`,
as produced by `chunk` + `squeeze`). -/
def MAES.forward (M : MAES σE σS) (batch_size : Nat) (inputs : List Tensor2) :
    Except RunError Tensor3 :=
  if inputs.length = 0 then Except.error RunError.emptyInput
  else
    match M.forwardLoop (M.initState batch_size inputs.length) inputs with
    | Except.error e => Except.error e
    | Except.ok st => Except.ok (stack1 batch_size st.logits)

/-- Which cell ran at time step `t` of a forward pass (`none` when `t`
is outside the sequence). -/
def MAES.modeUsedAt (M : MAES σE σS) (batch_size : Nat) (inputs : List Tensor2)
    (t : Nat) : Except RunError (Option Mode) :=
  match M.forwardLoop (M.initState batch_size inputs.length) inputs with
  | Except.error e => Except.error e
  | Except.ok st => Except.ok (st.modesUsed.get? t)

/-- A matrix of shape `[r x c]`. -/
def hasShape2 (t : Tensor2) (r c : Nat) : Prop :=
  t.length = r ∧ ∀ row ∈ t, row.length = c

/-- A rank-3 tensor of shape `[a x r x c]`. -/
def hasShape3 (t : Tensor3) (a r c : Nat) : Prop :=
  t.length = a ∧ ∀ m ∈ t, m.length = r ∧ ∀ row ∈ m, row.length = c

/-- A loop state is well-formed when the solver state is present
whenever the mode is `Solve`. -/
def solverOk (st : LoopState σE σS) : Prop :=
  st.mode = Mode.Solve → st.solver_state ≠ none

/-- The trace of modes used so far is a block of `Encode` steps followed
by a block of `Solve` steps, and the current mode can only be `Encode`
while the `Solve` block is still empty. -/
def traceShape (st : LoopState σE σS) : Prop :=
  ∃ a b, st.modesUsed = List.replicate a Mode.Encode ++ List.replicate b Mode.Solve ∧
    (st.mode = Mode.Encode → b = 0)

/-- A concrete MAES instance over trivial cell states, used to exercise
the theorems on explicit inputs: the encoder cell always emits the
1 x 1 logit `[[0]]` and the solver cell always emits `[[1]]`. -/
def M0 : MAES Unit Unit :=
  { encoding_bit := 0
    solving_bit := 1
    pass_cell_state := true
    save_encoder := false
    num_memory_addresses := -1
    num_memory_content_bits := 8
    encoder_init_state := fun _ => ()
    encoder_cell := fun _ _ => ([[0]], ())
    solver_cell := fun _ _ => ([[1]], ())
    solver_init_state_with_encoder_state := fun _ => ()
    memory_state := fun _ => []
    attention := fun _ => []
    solver_init_state := fun _ _ => () }

/-- A two-step input sequence for batch size 1 whose first item carries
the solving bit (channel 1) and whose second item carries no control bits. -/
def exSolveFirst : List Tensor2 := [[[0, 1]], [[0, 0]]]

/-- A two-step input sequence for batch size 1 with no control bits set
at all; its second item is the same as the second item of `exSolveFirst`. -/
def exPlain : List Tensor2 := [[[0, 0]], [[0, 0]]]

/-- A one-step input sequence for batch size 1 with both control bits set. -/
def exBothBits : List Tensor2 := [[[1, 1]]]

/-- The loop state reached by `M0` from `M0.initState 1 2` after one
step on the item `[[0, 1]]`. -/
def exStep : LoopState Unit Unit :=
  { mode := Mode.Solve
    encoder_state := ()
    solver_state := some ()
    logits := [[[1]]]
    modesUsed := [Mode.Solve] }

/-- The loop state produced by `M0.switchMode` from `M0.initState 1 2`
on the item `[[0, 1]]` (before the cell runs). -/
def exSwitched : LoopState Unit Unit :=
  { mode := Mode.Solve
    encoder_state := ()
    solver_state := some ()
    logits := []
    modesUsed := [] }

/-- The final loop state of `M0` on `exSolveFirst`. -/
def exRun : LoopState Unit Unit :=
  { mode := Mode.Solve
    encoder_state := ()
    solver_state := some ()
    logits := [[[1]], [[1]]]
    modesUsed := [Mode.Solve, Mode.Solve] }

/-! ## Structural lemmas about the forward loop -/

lemma solverOk_initState (M : MAES σE σS) (batch_size seq_len : Nat) :
    solverOk (M.initState batch_size seq_len) := by
  intro h
  simp [MAES.initState] at h

lemma switchMode_spec (M : MAES σE σS) {x : Tensor2} {st st₁ : LoopState σE σS}
    (h : M.switchMode x st = Except.ok st₁) :
    st₁ = { st with
      mode := if M.solBit x && !(M.encBit x) then Mode.Solve else st.mode,
      solver_state :=
        if M.solBit x && !(M.encBit x) then
          some (if M.pass_cell_state then
                  M.solver_init_state_with_encoder_state st.encoder_state
                else
                  M.solver_init_state (M.memory_state st.encoder_state)
                    (M.attention st.encoder_state))
        else st.solver_state } := by
  unfold MAES.switchMode at h
  split at h
  · rename_i hc
    simp only [Except.ok.injEq] at h
    simp [hc, ← h]
  · split at h
    · exact absurd h (by simp)
    · rename_i hc _
      simp only [Except.ok.injEq] at h
      simp [hc, ← h]

lemma switchMode_error (M : MAES σE σS) {x : Tensor2} {st : LoopState σE σS}
    {e : RunError} (h : M.switchMode x st = Except.error e) :
    M.encBit x = true ∧ M.solBit x = true ∧ e = RunError.illegalInput := by
  unfold MAES.switchMode at h
  split at h
  · exact absurd h (by simp)
  · split at h
    · rename_i hc
      simp only [Except.error.injEq] at h
      simp only [Bool.and_eq_true] at hc
      exact ⟨hc.1, hc.2, h.symm⟩
    · exact absurd h (by simp)

lemma switchMode_illegal (M : MAES σE σS) (x : Tensor2) (st : LoopState σE σS)
    (he : M.encBit x = true) (hs : M.solBit x = true) :
    M.switchMode x st = Except.error RunError.illegalInput := by
  unfold MAES.switchMode
  simp [he, hs]

lemma switchMode_ok (M : MAES σE σS) (x : Tensor2) (st : LoopState σE σS)
    (hx : ¬(M.encBit x = true ∧ M.solBit x = true)) :
    ∃ st₁, M.switchMode x st = Except.ok st₁ := by
  unfold MAES.switchMode
  split
  · exact ⟨_, rfl⟩
  · split
    · rename_i hc
      simp only [Bool.and_eq_true] at hc
      exact absurd ⟨hc.1, hc.2⟩ hx
    · exact ⟨_, rfl⟩

lemma runCell_encode (M : MAES σE σS) (x : Tensor2) (st : LoopState σE σS)
    (h : st.mode = Mode.Encode) :
    M.runCell x st = Except.ok { st with
      encoder_state := (M.encoder_cell x st.encoder_state).2,
      logits := st.logits ++ [(M.encoder_cell x st.encoder_state).1],
      modesUsed := st.modesUsed ++ [Mode.Encode] } := by
  unfold MAES.runCell
  rw [h]

lemma runCell_solve (M : MAES σE σS) (x : Tensor2) (st : LoopState σE σS)
    {ss : σS} (hm : st.mode = Mode.Solve) (hs : st.solver_state = some ss) :
    M.runCell x st = Except.ok { st with
      solver_state := some (M.solver_cell x ss).2,
      logits := st.logits ++ [(M.solver_cell x ss).1],
      modesUsed := st.modesUsed ++ [Mode.Solve] } := by
  unfold MAES.runCell
  rw [hm, hs]

lemma runCell_spec (M : MAES σE σS) {x : Tensor2} {st st₂ : LoopState σE σS}
    (h : M.runCell x st = Except.ok st₂) :
    st₂.mode = st.mode ∧ st₂.modesUsed = st.modesUsed ++ [st.mode] ∧
    solverOk st₂ ∧ ∃ logit, st₂.logits = st.logits ++ [logit] ∧
      ((∃ s, logit = (M.encoder_cell x s).1) ∨ (∃ s, logit = (M.solver_cell x s).1)) := by
  unfold MAES.runCell at h
  cases hm : st.mode with
  | Encode =>
      rw [hm] at h
      simp only [Except.ok.injEq] at h
      subst h
      refine ⟨rfl, rfl, ?_, (M.encoder_cell x st.encoder_state).1, rfl,
        Or.inl ⟨st.encoder_state, rfl⟩⟩
      intro hmode
      simp at hmode
  | Solve =>
      rw [hm] at h
      cases hs : st.solver_state with
      | none =>
          rw [hs] at h
          exact absurd h (by simp)
      | some ss =>
          rw [hs] at h
          simp only [Except.ok.injEq] at h
          subst h
          refine ⟨rfl, rfl, ?_, (M.solver_cell x ss).1, rfl,
            Or.inr ⟨ss, rfl⟩⟩
          intro _
          simp

lemma runCell_ok (M : MAES σE σS) (x : Tensor2) (st : LoopState σE σS)
    (hst : solverOk st) : ∃ st₂, M.runCell x st = Except.ok st₂ := by
  unfold MAES.runCell
  cases hm : st.mode with
  | Encode => exact ⟨_, rfl⟩
  | Solve =>
      cases hs : st.solver_state with
      | none => exact absurd hs (hst hm)
      | some ss => exact ⟨_, rfl⟩

lemma forwardStep_spec (M : MAES σE σS) {x : Tensor2} {st st₂ : LoopState σE σS}
    (h : M.forwardStep st x = Except.ok st₂) :
    st₂.mode = (if M.solBit x && !(M.encBit x) then Mode.Solve else st.mode) ∧
    st₂.modesUsed = st.modesUsed ++ [st₂.mode] ∧
    solverOk st₂ ∧ ∃ logit, st₂.logits = st.logits ++ [logit] ∧
      ((∃ s, logit = (M.encoder_cell x s).1) ∨ (∃ s, logit = (M.solver_cell x s).1)) := by
  unfold MAES.forwardStep at h
  cases hsw : M.switchMode x st with
  | error e => rw [hsw] at h; exact absurd h (by simp)
  | ok st₁ =>
      rw [hsw] at h
      have h₁ := switchMode_spec M hsw
      have h₂ := runCell_spec M h
      obtain ⟨hmode, htrace, hok, logit, hlog, horig⟩ := h₂
      have hm₁ : st₁.mode = (if M.solBit x && !(M.encBit x) then Mode.Solve else st.mode) := by
        rw [h₁]
      have hmu₁ : st₁.modesUsed = st.modesUsed := by rw [h₁]
      have hlg₁ : st₁.logits = st.logits := by rw [h₁]
      refine ⟨hmode.trans hm₁, ?_, hok, logit, ?_, horig⟩
      · rw [htrace, hmu₁, hmode]
      · rw [hlog, hlg₁]

lemma switchMode_solverOk (M : MAES σE σS) {x : Tensor2} {st st₁ : LoopState σE σS}
    (h : M.switchMode x st = Except.ok st₁) (hst : solverOk st) : solverOk st₁ := by
  unfold MAES.switchMode at h
  split at h
  · simp only [Except.ok.injEq] at h
    subst h
    intro _
    simp
  · split at h
    · exact absurd h (by simp)
    · simp only [Except.ok.injEq] at h
      subst h
      exact hst

lemma forwardStep_ok (M : MAES σE σS) (st : LoopState σE σS) (x : Tensor2)
    (hx : ¬(M.encBit x = true ∧ M.solBit x = true)) (hst : solverOk st) :
    ∃ st₂, M.forwardStep st x = Except.ok st₂ := by
  obtain ⟨st₁, hsw⟩ := switchMode_ok M x st hx
  obtain ⟨st₂, hrc⟩ := runCell_ok M x st₁ (switchMode_solverOk M hsw hst)
  refine ⟨st₂, ?_⟩
  unfold MAES.forwardStep
  rw [hsw]
  exact hrc

lemma forwardStep_illegal (M : MAES σE σS) (st : LoopState σE σS) (x : Tensor2)
    (he : M.encBit x = true) (hs : M.solBit x = true) :
    M.forwardStep st x = Except.error RunError.illegalInput := by
  unfold MAES.forwardStep
  rw [switchMode_illegal M x st he hs]

lemma forwardLoop_ok (M : MAES σE σS) (xs : List Tensor2) :
    ∀ st : LoopState σE σS,
      (∀ x ∈ xs, ¬(M.encBit x = true ∧ M.solBit x = true)) → solverOk st →
      ∃ st', M.forwardLoop st xs = Except.ok st' ∧
        ∃ l, st'.logits = st.logits ++ l ∧ l.length = xs.length ∧
          ∀ t ∈ l, (∃ x s, t = (M.encoder_cell x s).1) ∨
                   (∃ x s, t = (M.solver_cell x s).1) := by
  induction xs with
  | nil =>
      intro st _ _
      exact ⟨st, rfl, [], by simp, rfl, by simp⟩
  | cons x xs ih =>
      intro st hctrl hst
      obtain ⟨st₂, hstep⟩ := forwardStep_ok M st x (hctrl x (by simp)) hst
      obtain ⟨_, _, hok₂, logit, hlog, horig⟩ := forwardStep_spec M hstep
      obtain ⟨st', hloop, l, hl, hlen, hmem⟩ :=
        ih st₂ (fun y hy => hctrl y (by simp [hy])) hok₂
      refine ⟨st', ?_, logit :: l, ?_, by simp [hlen], ?_⟩
      · unfold MAES.forwardLoop
        rw [hstep]
        exact hloop
      · rw [hl, hlog]
        simp
      · intro t ht
        rcases List.mem_cons.mp ht with h | h
        · subst h
          rcases horig with ⟨s, hs⟩ | ⟨s, hs⟩
          · exact Or.inl ⟨x, s, hs⟩
          · exact Or.inr ⟨x, s, hs⟩
        · exact hmem t h

lemma forwardLoop_illegal (M : MAES σE σS) (xs : List Tensor2) :
    ∀ st : LoopState σE σS, solverOk st →
      (∃ x ∈ xs, M.encBit x = true ∧ M.solBit x = true) →
      M.forwardLoop st xs = Except.error RunError.illegalInput := by
  induction xs with
  | nil =>
      intro st _ hex
      simp at hex
  | cons x xs ih =>
      intro st hst hex
      by_cases hx : M.encBit x = true ∧ M.solBit x = true
      · unfold MAES.forwardLoop
        rw [forwardStep_illegal M st x hx.1 hx.2]
      · obtain ⟨st₂, hstep⟩ := forwardStep_ok M st x hx hst
        obtain ⟨_, _, hok₂, _⟩ := forwardStep_spec M hstep
        have hex₂ : ∃ y ∈ xs, M.encBit y = true ∧ M.solBit y = true := by
          rcases hex with ⟨y, hy, hyb⟩
          rcases List.mem_cons.mp hy with h | h
          · exact absurd (h ▸ hyb) hx
          · exact ⟨y, h, hyb⟩
        unfold MAES.forwardLoop
        rw [hstep]
        exact ih st₂ hok₂ hex₂

lemma forwardStep_traceShape (M : MAES σE σS) {st st₂ : LoopState σE σS}
    {x : Tensor2} (h : M.forwardStep st x = Except.ok st₂)
    (hst : traceShape st) : traceShape st₂ := by
  obtain ⟨hmode, htrace, _⟩ := forwardStep_spec M h
  obtain ⟨a, b, hab, hb⟩ := hst
  cases hm₂ : st₂.mode with
  | Encode =>
      have hmode' : st.mode = Mode.Encode := by
        rw [hm₂] at hmode
        by_cases hc : (M.solBit x && !(M.encBit x)) = true
        · rw [if_pos hc] at hmode
          exact absurd hmode.symm (by simp)
        · rw [if_neg hc] at hmode
          exact hmode.symm
      have hb0 : b = 0 := hb hmode'
      refine ⟨a + 1, 0, ?_, fun _ => rfl⟩
      rw [htrace, hm₂, hab, hb0]
      simp [List.replicate_succ']
  | Solve =>
      refine ⟨a, b + 1, ?_, ?_⟩
      · rw [htrace, hm₂, hab]
        rw [List.replicate_succ' (n := b)]
        simp
      · intro hcontra
        rw [hm₂] at hcontra
        exact absurd hcontra (by simp)

lemma forwardLoop_traceShape (M : MAES σE σS) (xs : List Tensor2) :
    ∀ st st' : LoopState σE σS, M.forwardLoop st xs = Except.ok st' →
      traceShape st → traceShape st' := by
  induction xs with
  | nil =>
      intro st st' h hst
      unfold MAES.forwardLoop at h
      simp only [Except.ok.injEq] at h
      exact h ▸ hst
  | cons x xs ih =>
      intro st st' h hst
      unfold MAES.forwardLoop at h
      cases hstep : M.forwardStep st x with
      | error e => rw [hstep] at h; exact absurd h (by simp)
      | ok st₂ =>
          rw [hstep] at h
          exact ih st₂ st' h (forwardStep_traceShape M hstep hst)

lemma stack1_shape {B S O : Nat} {l : List Tensor2}
    (hlen : l.length = S) (hsh : ∀ t ∈ l, hasShape2 t B O) :
    hasShape3 (stack1 B l) B S O := by
  refine ⟨by simp [stack1], ?_⟩
  intro m hm
  simp only [stack1, List.mem_map, List.mem_range] at hm
  obtain ⟨b, hb, hmb⟩ := hm
  subst hmb
  refine ⟨by simp [hlen], ?_⟩
  intro row hrow
  simp only [List.mem_map] at hrow
  obtain ⟨t, ht, hrt⟩ := hrow
  subst hrt
  obtain ⟨htl, hrows⟩ := hsh t ht
  have hblt : b < t.length := htl ▸ hb
  rw [List.getD_eq_getElem?_getD, List.getElem?_eq_getElem hblt]
  exact hrows _ (List.getElem_mem hblt)

/-! ## Lemmas about DataDict -/

lemma getValue_setValue {K V : Type} [DecidableEq K] (d : DataDict K V) (k : K) (v : V) :
    DataDict.getValue (DataDict.setValue d k v) k = some v := by
  induction d with
  | nil => simp [DataDict.setValue, DataDict.getValue]
  | cons kv rest ih =>
      obtain ⟨k₀, v₀⟩ := kv
      by_cases hk : k₀ = k
      · subst hk
        simp [DataDict.setValue, DataDict.getValue]
      · simp [DataDict.setValue, DataDict.getValue, hk, ih]

lemma keys_filter_not_mem {K V : Type} [DecidableEq K] (d : DataDict K V) (k : K) :
    k ∉ DataDict.keys (d.filter (fun kv => decide (kv.1 ≠ k))) := by
  intro hk
  simp only [DataDict.keys, List.mem_map] at hk
  obtain ⟨kv, hkv, hkvk⟩ := hk
  rw [List.mem_filter] at hkv
  have hne := hkv.2
  simp only [decide_eq_true_eq] at hne
  exact hne hkvk

/-! ## Claims about problem.py -/

/-- C6: for every DataDict and every key, `__delitem__` with the default
`override=False` raises `KeyError` (the container, being a value here,
is untouched on that path); an entry is only ever removed when
`override=True` is passed and the key exists, and then the key is gone
from the result. -/
theorem datadict_delitem_restricted {K V : Type} [DecidableEq K]
    (d : DataDict K V) (k : K) :
    DataDict.delitem d k false =
      Except.error (PyError.keyError "Not authorizing the deletion of a key.") ∧
    ∀ (override : Bool) (d' : DataDict K V),
      DataDict.delitem d k override = Except.ok d' →
      override = true ∧ k ∈ DataDict.keys d ∧ k ∉ DataDict.keys d' := by
  constructor
  · rfl
  · intro override d' h
    cases override with
    | false => exact absurd h (by simp [DataDict.delitem])
    | true =>
        refine ⟨rfl, ?_⟩
        unfold DataDict.delitem DataDict.delValue at h
        simp only [Bool.not_true, Bool.false_eq_true, if_false] at h
        split at h
        · rename_i hc
          simp only [Except.ok.injEq] at h
          subst h
          simp only [DataDict.containsKey, decide_eq_true_eq] at hc
          exact ⟨hc, keys_filter_not_mem d k⟩
        · exact absurd h (by simp)

/-- Witness for C6 on the one-entry dict mapping "a" to 0: deletion
with the default fails, deletion with `override=True` has removed "a". -/
theorem datadict_delitem_restricted_witness :
    DataDict.delitem ([("a", 0)] : DataDict String Nat) "a" false =
      Except.error (PyError.keyError "Not authorizing the deletion of a key.") ∧
    (true = true ∧ "a" ∈ DataDict.keys ([("a", 0)] : DataDict String Nat) ∧
      "a" ∉ DataDict.keys ([] : DataDict String Nat)) :=
  ⟨(datadict_delitem_restricted [("a", 0)] "a").1,
   (datadict_delitem_restricted [("a", 0)] "a").2 true [] (by decide)⟩

/-- C7: `__setitem__` with the default `addkey=False` always succeeds
and stores the value, also for a previously absent key; the KeyError
branch is reachable only when `addkey=True` is passed and the key is
absent. -/
theorem datadict_setitem_default_adds {K V : Type} [DecidableEq K]
    (d : DataDict K V) (k : K) (v : V) :
    DataDict.setitem d k v false = Except.ok (DataDict.setValue d k v) ∧
    DataDict.getitem (DataDict.setValue d k v) k = some v ∧
    ∀ (addkey : Bool) (e : PyError),
      DataDict.setitem d k v addkey = Except.error e →
      addkey = true ∧ k ∉ DataDict.keys d := by
  refine ⟨by simp [DataDict.setitem], getValue_setValue d k v, ?_⟩
  intro addkey e h
  unfold DataDict.setitem at h
  split at h
  · rename_i hc
    simp only [Bool.and_eq_true, Bool.not_eq_true'] at hc
    refine ⟨hc.1, ?_⟩
    have hck := hc.2
    simp only [DataDict.containsKey, decide_eq_false_iff_not] at hck
    exact hck
  · exact absurd h (by simp)

/-- Witness for C7 on the empty dict: assigning a fresh key "a" with
the default succeeds and stores the value, and the KeyError branch
taken with `addkey=True` on the same dict certifies the key is absent. -/
theorem datadict_setitem_default_adds_witness :
    DataDict.setitem ([] : DataDict String Nat) "a" 7 false =
      Except.ok (DataDict.setValue [] "a" 7) ∧
    DataDict.getitem (DataDict.setValue ([] : DataDict String Nat) "a" 7) "a" = some 7 ∧
    (true = true ∧ "a" ∉ DataDict.keys ([] : DataDict String Nat)) :=
  ⟨(datadict_setitem_default_adds [] "a" 7).1,
   (datadict_setitem_default_adds [] "a" 7).2.1,
   (datadict_setitem_default_adds [] "a" 7).2.2 true
     (PyError.keyError "Cannot modify a non-existing key.") (by decide)⟩

/-- C8: the base `Problem.__getitem__` upholds the handshake convention
for every index: the returned DataDict has exactly the keys of
`data_definitions`, every value is `None`, and the default
`data_definitions` of the constructor contains the "targets" key. -/
theorem problem_getitem_handshake (V : Type) (dd : DataDict String DataDef)
    (index : Nat) :
    DataDict.keys (Problem.getitem V dd index) = DataDict.keys dd ∧
    (Problem.getitem V dd index).map Prod.snd =
      List.replicate dd.length (none : Option V) ∧
    "targets" ∈ DataDict.keys Problem.init_data_definitions := by
  refine ⟨?_, ?_, by simp [Problem.init_data_definitions, DataDict.keys]⟩
  · induction dd with
    | nil => rfl
    | cons kv rest ih =>
        simp only [Problem.getitem, DataDict.keys, List.map_cons] at ih ⊢
        rw [ih]
  · induction dd with
    | nil => rfl
    | cons kv rest ih =>
        simp only [Problem.getitem, List.map_cons, List.length_cons,
          List.replicate_succ] at ih ⊢
        rw [ih]

/-- C9: `MAES.save(model_dir, episode)` performs exactly one save of the
whole model state dict, to `model_episode_<episode:05d>.pt` inside
`model_dir`, and no other write unless `save_encoder` is set, in which
case exactly one further save writes the encoder state dict to
`encoder_episode_<episode:05d>.pt`. -/
theorem maes_save_events {σE σS : Type} (M : MAES σE σS) (model_dir : String)
    (episode : Nat) :
    M.save model_dir episode =
      SaveEvent.mk (model_dir ++ ("model_episode_" ++ format05 episode ++ ".pt"))
          SavedObject.modelStateDict ::
        (if M.save_encoder then
          [SaveEvent.mk (model_dir ++ ("encoder_episode_" ++ format05 episode ++ ".pt"))
            SavedObject.encoderStateDict]
         else []) := by
  unfold MAES.save
  cases hs : M.save_encoder <;> simp

/-- C10: for every dataset length and every positive batch size,
`Problem.get_epoch_size` is the ceiling of length over batch size, i.e.
it also counts a last, smaller batch. -/
theorem problem_get_epoch_size_ceil (length batch_size : Nat) (h : 0 < batch_size) :
    Problem.get_epoch_size length batch_size = (length + batch_size - 1) / batch_size := by
  have hdm : batch_size * (length / batch_size) + length % batch_size = length :=
    Nat.div_add_mod length batch_size
  have hlt : length % batch_size < batch_size := Nat.mod_lt length h
  unfold Problem.get_epoch_size
  by_cases hr : length % batch_size = 0
  · rw [if_pos hr]
    have key : length + batch_size - 1 =
        batch_size * (length / batch_size) + (batch_size - 1) := by omega
    have hz : (batch_size - 1) / batch_size = 0 := Nat.div_eq_of_lt (by omega)
    rw [key, Nat.mul_add_div h, hz]
    omega
  · rw [if_neg hr]
    have hmul : batch_size * (length / batch_size + 1) =
        batch_size * (length / batch_size) + batch_size := by ring
    have key : length + batch_size - 1 =
        batch_size * (length / batch_size + 1) + (length % batch_size - 1) := by
      omega
    have hz : (length % batch_size - 1) / batch_size = 0 :=
      Nat.div_eq_of_lt (by omega)
    rw [key, Nat.mul_add_div h, hz]

/-- Witness for C10 at length 7, batch size 3: three episodes. -/
theorem problem_get_epoch_size_ceil_witness :
    0 < 3 ∧ Problem.get_epoch_size 7 3 = (7 + 3 - 1) / 3 :=
  ⟨by decide, problem_get_epoch_size_ceil 7 3 (by decide)⟩

/-! ## Claims about MAES.forward -/

/-- C1: on a non-empty input sequence whose control bits never trigger
the illegal-input exit, and with cells whose logits have shape
`[batch_size x output_size]` (the cell classes live outside the sources
under verification; their output shape is taken from the spec as a
hypothesis), `MAES.forward` succeeds and returns a logits tensor of
shape `[batch_size x seq_len x output_size]`: one logit per time step,
from whichever cell ran at that step, stacked along dim 1. -/
theorem maes_forward_output_shape {σE σS : Type} (M : MAES σE σS)
    (batch_size output_size : Nat) (inputs : List Tensor2)
    (hne : inputs ≠ [])
    (henc : ∀ x s, hasShape2 (M.encoder_cell x s).1 batch_size output_size)
    (hsol : ∀ x s, hasShape2 (M.solver_cell x s).1 batch_size output_size)
    (hctrl : ∀ x ∈ inputs, ¬(M.encBit x = true ∧ M.solBit x = true)) :
    ∃ t, M.forward batch_size inputs = Except.ok t ∧
      hasShape3 t batch_size inputs.length output_size := by
  obtain ⟨st', hloop, l, hl, hlen, hmem⟩ :=
    forwardLoop_ok M inputs (M.initState batch_size inputs.length) hctrl
      (solverOk_initState M batch_size inputs.length)
  have hne' : ¬(inputs.length = 0) := fun h0 => hne (List.length_eq_zero.mp h0)
  refine ⟨stack1 batch_size st'.logits, ?_, ?_⟩
  · unfold MAES.forward
    rw [if_neg hne', hloop]
  · have hinit : (M.initState batch_size inputs.length).logits = [] := rfl
    have hlog : st'.logits = l := by
      rw [hl, hinit, List.nil_append]
    rw [hlog]
    refine stack1_shape hlen ?_
    intro t ht
    rcases hmem t ht with ⟨x, s, hx⟩ | ⟨x, s, hx⟩
    · exact hx ▸ henc x s
    · exact hx ▸ hsol x s

lemma hasShape2_cell0 : hasShape2 [[(0 : Scalar)]] 1 1 :=
  ⟨rfl, fun row h => by rw [List.mem_singleton] at h; subst h; rfl⟩

lemma hasShape2_cell1 : hasShape2 [[(1 : Scalar)]] 1 1 :=
  ⟨rfl, fun row h => by rw [List.mem_singleton] at h; subst h; rfl⟩

/-- Witness for C1: `M0` on the two-step sequence `exSolveFirst`
returns a `[1 x 2 x 1]` logits tensor. -/
theorem maes_forward_output_shape_witness :
    ∃ t, M0.forward 1 exSolveFirst = Except.ok t ∧
      hasShape3 t 1 exSolveFirst.length 1 :=
  maes_forward_output_shape M0 1 1 exSolveFirst (by decide)
    (fun _ _ => hasShape2_cell0)
    (fun _ _ => hasShape2_cell1)
    (by decide)

/-- C2: on a non-empty input sequence, the only error `MAES.forward`
can raise is the illegal-input exit, and it raises it exactly when some
time step has both control bits set on the first batch element; every
other input runs to completion, with no recovery or retry path. -/
theorem maes_forward_single_error_check {σE σS : Type} (M : MAES σE σS)
    (batch_size : Nat) (inputs : List Tensor2) (hne : inputs ≠ []) :
    (∀ e, M.forward batch_size inputs = Except.error e → e = RunError.illegalInput) ∧
    (M.forward batch_size inputs = Except.error RunError.illegalInput ↔
      ∃ x ∈ inputs, M.encBit x = true ∧ M.solBit x = true) := by
  have hne' : ¬(inputs.length = 0) := fun h0 => hne (List.length_eq_zero.mp h0)
  by_cases hex : ∃ x ∈ inputs, M.encBit x = true ∧ M.solBit x = true
  · have herr := forwardLoop_illegal M inputs (M.initState batch_size inputs.length)
      (solverOk_initState M batch_size inputs.length) hex
    have hfwd : M.forward batch_size inputs = Except.error RunError.illegalInput := by
      unfold MAES.forward
      rw [if_neg hne', herr]
    constructor
    · intro e he
      rw [hfwd] at he
      simp only [Except.error.injEq] at he
      exact he.symm
    · exact ⟨fun _ => hex, fun _ => hfwd⟩
  · have hctrl : ∀ x ∈ inputs, ¬(M.encBit x = true ∧ M.solBit x = true) :=
      fun x hx hb => hex ⟨x, hx, hb⟩
    obtain ⟨st', hloop, _⟩ :=
      forwardLoop_ok M inputs (M.initState batch_size inputs.length) hctrl
        (solverOk_initState M batch_size inputs.length)
    have hfwd : M.forward batch_size inputs =
        Except.ok (stack1 batch_size st'.logits) := by
      unfold MAES.forward
      rw [if_neg hne', hloop]
    constructor
    · intro e he
      rw [hfwd] at he
      exact absurd he (by simp)
    · constructor
      · intro he
        rw [hfwd] at he
        exact absurd he (by simp)
      · intro hx
        exact absurd hx hex

/-- Witness for C2: `M0` on the one-step sequence with both control
bits set terminates with the illegal-input exit. -/
theorem maes_forward_single_error_check_witness :
    M0.forward 1 exBothBits = Except.error RunError.illegalInput :=
  (maes_forward_single_error_check M0 1 exBothBits (by decide)).2.mpr (by decide)

/-- Counterexample to C3 as stated: the processing mode at a time step
is NOT fully determined by the current item's control bits. The
sequences `exSolveFirst` and `exPlain` carry the same item at step 1
(no control bits at all), yet on `exSolveFirst` the solver runs at step
1 while on `exPlain` the encoder runs there — the difference comes
entirely from step 0. -/
theorem maes_mode_depends_on_history :
    exSolveFirst.get? 1 = exPlain.get? 1 ∧
    M0.modeUsedAt 1 exSolveFirst 1 = Except.ok (some Mode.Solve) ∧
    M0.modeUsedAt 1 exPlain 1 = Except.ok (some Mode.Encode) := by
  refine ⟨by decide, by decide, by decide⟩

/-- C3 amended: the choice between encoder and solver at a time step is
a conditional dispatch over the current item's two control bits
together with the mode carried over from earlier steps: a step with the
solving bit set and the encoding bit clear sets the mode to `Solve`,
any other non-terminating step keeps the previous mode, and the cell
named by the resulting mode is the one that runs at that step. -/
theorem maes_mode_dispatch_latched {σE σS : Type} (M : MAES σE σS)
    (st st₂ : LoopState σE σS) (x : Tensor2)
    (h : M.forwardStep st x = Except.ok st₂) :
    st₂.mode = (if M.solBit x && !(M.encBit x) then Mode.Solve else st.mode) ∧
    st₂.modesUsed = st.modesUsed ++ [st₂.mode] := by
  obtain ⟨h1, h2, _⟩ := forwardStep_spec M h
  exact ⟨h1, h2⟩

/-- Witness for the amended C3 at a concrete step of `M0`. -/
theorem maes_mode_dispatch_latched_witness :
    exStep.mode = (if M0.solBit [[0, 1]] && !(M0.encBit [[0, 1]]) then Mode.Solve
      else (M0.initState 1 2).mode) ∧
    exStep.modesUsed = (M0.initState 1 2).modesUsed ++ [exStep.mode] :=
  maes_mode_dispatch_latched M0 (M0.initState 1 2) exStep [[0, 1]] (by decide)

/-- C4: when `MAES.forward` switches to the solve phase (solving bit
set, encoding bit clear on the first batch element), the state hand-off
is governed by `pass_cell_state`: with `pass_cell_state` the solver
state is initialised from the full final encoder state, otherwise from
only the final memory state and final attention of the encoder. -/
theorem maes_switch_state_handoff {σE σS : Type} (M : MAES σE σS) (x : Tensor2)
    (st st₁ : LoopState σE σS)
    (hsol : M.solBit x = true) (henc : M.encBit x = false)
    (h : M.switchMode x st = Except.ok st₁) :
    st₁.mode = Mode.Solve ∧
    st₁.solver_state = some
      (if M.pass_cell_state then
        M.solver_init_state_with_encoder_state st.encoder_state
       else
        M.solver_init_state (M.memory_state st.encoder_state)
          (M.attention st.encoder_state)) := by
  have hspec := switchMode_spec M h
  have hc : (M.solBit x && !(M.encBit x)) = true := by rw [hsol, henc]; rfl
  rw [hspec]
  simp [hc]

/-- Witness for C4 at a concrete switch step of `M0`. -/
theorem maes_switch_state_handoff_witness :
    exSwitched.mode = Mode.Solve ∧
    exSwitched.solver_state = some
      (if M0.pass_cell_state then
        M0.solver_init_state_with_encoder_state (M0.initState 1 2).encoder_state
       else
        M0.solver_init_state (M0.memory_state (M0.initState 1 2).encoder_state)
          (M0.attention (M0.initState 1 2).encoder_state)) :=
  maes_switch_state_handoff M0 [[0, 1]] (M0.initState 1 2) exSwitched
    (by decide) (by decide) (by decide)

/-- C5: the loop of `MAES.forward` starts in `Encode` mode, and the
mode transition is one-way: on every successful run, whatever the
control bits of later items, the per-step trace of cells run is a block
of encoder steps followed by a block of solver steps — once the mode is
`Solve` it never returns to `Encode`. -/
theorem maes_mode_one_way {σE σS : Type} (M : MAES σE σS)
    (batch_size seq_len : Nat) :
    (M.initState batch_size seq_len).mode = Mode.Encode ∧
    ∀ (inputs : List Tensor2) (st' : LoopState σE σS),
      M.forwardLoop (M.initState batch_size inputs.length) inputs = Except.ok st' →
      ∃ a b, st'.modesUsed =
        List.replicate a Mode.Encode ++ List.replicate b Mode.Solve := by
  refine ⟨rfl, ?_⟩
  intro inputs st' h
  obtain ⟨a, b, hab, _⟩ :=
    forwardLoop_traceShape M inputs _ st' h ⟨0, 0, rfl, fun _ => rfl⟩
  exact ⟨a, b, hab⟩

/-- Witness for C5: the run of `M0` on `exSolveFirst` uses the solver
from step 0 on, a trace of zero encoder steps and two solver steps. -/
theorem maes_mode_one_way_witness :
    (M0.initState 1 2).mode = Mode.Encode ∧
    ∃ a b, exRun.modesUsed =
      List.replicate a Mode.Encode ++ List.replicate b Mode.Solve :=
  ⟨(maes_mode_one_way M0 1 2).1,
   (maes_mode_one_way M0 1 2).2 exSolveFirst exRun (by decide)⟩

end MiPrometheus
